import Mathlib

/-!
Verification of the KDoc repair utility (`src/fix_kdoc.py`).

The script reads a file as a list of lines, finds maximal contiguous runs of
lines that start with `"     * "` (five spaces, an asterisk, a space) — the
first line of a run additionally required not to start with `"    /**"` —
wraps every such run with an opening line `"    /**\n"` and a closing line
`"     */\n"`, writes the result back, and returns the number of input lines
matching the per-line predicate.

We embed a line as its character sequence (`List Char`, trailing newline
included) and the per-file transformation `fix_kdoc_in_file` as the pure
functions `fixLines` (the rewritten line sequence) and `fixCount` (the
returned count), translated directly from the source.
-/

/-- A line of the input file, as its character sequence, trailing
line-terminator included. -/
abbrev Line := List Char

/-- Python's `s.startswith(p)` on character sequences: `startsWith p s` is
true when `p` is an initial segment of `s`. -/
def startsWith : List Char → List Char → Bool
  | [], _ => true
  | _ :: _, [] => false
  | p :: ps, c :: cs => p == c && startsWith ps cs

/-- `line.startswith('     * ')` — five spaces, an asterisk, a space
(fix_kdoc.py, lines 25 and 29). -/
def bareBody (l : Line) : Bool := startsWith "     * ".toList l

/-- `line.startswith('    /**')` — four spaces then `/**`
(fix_kdoc.py, line 25). -/
def alreadyOpened (l : Line) : Bool := startsWith "    /**".toList l

/-- The inserted opening line `'    /**\n'` (fix_kdoc.py, line 34). -/
def opener : Line := "    /**\n".toList

/-- The inserted closing line `'     */\n'` (fix_kdoc.py, line 38). -/
def closer : Line := "     */\n".toList

/-- The line-sequence transformation performed by `fix_kdoc_in_file`
(fix_kdoc.py, lines 19–44): a single forward scan.  When the current line
satisfies the guard of line 25, the inner loop of lines 28–31 collects
`lines[i..j)`, every line of which satisfies `bareBody`; since the guard
already gives `bareBody line`, that block is `line :: rest.takeWhile bareBody`
and the scan resumes at `rest.dropWhile bareBody`. -/
def fixLines : List Line → List Line
  | [] => []
  | line :: rest =>
    if bareBody line && !alreadyOpened line then
      opener :: (line :: rest.takeWhile bareBody) ++ closer ::
        fixLines (rest.dropWhile bareBody)
    else
      line :: fixLines rest
termination_by l => l.length
decreasing_by
  · exact Nat.lt_succ_of_le (List.dropWhile_sublist bareBody).length_le
  · exact Nat.lt_succ_self _

/-- The value returned by `fix_kdoc_in_file` (fix_kdoc.py, line 50): the
number of input lines satisfying the per-line predicate of line 25. -/
def fixCount (lines : List Line) : Nat :=
  (lines.filter (fun l => bareBody l && !alreadyOpened l)).length

/-- The number of runs detected by the scan of `fix_kdoc_in_file`: one per
execution of the then-branch of line 25, mirroring the control flow of
`fixLines`. -/
def numRuns : List Line → Nat
  | [] => 0
  | line :: rest =>
    if bareBody line && !alreadyOpened line then
      1 + numRuns (rest.dropWhile bareBody)
    else
      numRuns rest
termination_by l => l.length
decreasing_by
  · exact Nat.lt_succ_of_le (List.dropWhile_sublist bareBody).length_le
  · exact Nat.lt_succ_self _

/-- The total number of input lines belonging to some detected run: the sum,
over the runs detected by the scan, of the run lengths. -/
def runLineTotal : List Line → Nat
  | [] => 0
  | line :: rest =>
    if bareBody line && !alreadyOpened line then
      (line :: rest.takeWhile bareBody).length +
        runLineTotal (rest.dropWhile bareBody)
    else
      runLineTotal rest
termination_by l => l.length
decreasing_by
  · exact Nat.lt_succ_of_le (List.dropWhile_sublist bareBody).length_le
  · exact Nat.lt_succ_self _

/-- The subsequence of input lines that are not part of any detected run:
exactly the lines emitted by the else-branch of the scan (fix_kdoc.py,
lines 42–44). -/
def nonRunLines : List Line → List Line
  | [] => []
  | line :: rest =>
    if bareBody line && !alreadyOpened line then
      nonRunLines (rest.dropWhile bareBody)
    else
      line :: nonRunLines rest
termination_by l => l.length
decreasing_by
  · exact Nat.lt_succ_of_le (List.dropWhile_sublist bareBody).length_le
  · exact Nat.lt_succ_self _

/-- The (start index, exclusive end index) pairs of the runs detected by the
scan, relative to the original sequence; `idx` is the index of the first
line of the remaining suffix. -/
def runsFrom : Nat → List Line → List (Nat × Nat)
  | _, [] => []
  | idx, line :: rest =>
    if bareBody line && !alreadyOpened line then
      (idx, idx + (line :: rest.takeWhile bareBody).length) ::
        runsFrom (idx + (line :: rest.takeWhile bareBody).length)
          (rest.dropWhile bareBody)
    else
      runsFrom (idx + 1) rest
termination_by _ l => l.length
decreasing_by
  · exact Nat.lt_succ_of_le (List.dropWhile_sublist bareBody).length_le
  · exact Nat.lt_succ_self _

/-- The runs detected in an input sequence, as index spans. -/
def runs (L : List Line) : List (Nat × Nat) := runsFrom 0 L

/-- The scanning loop with an explicit iteration budget: `none` when the
budget is exhausted before `i` reaches the end.  Used to state that the
`while` loop of fix_kdoc.py lines 21–44 terminates within `len(lines)`
iterations, because `i` strictly increases on every iteration. -/
def fixLinesFuel : Nat → List Line → Option (List Line)
  | _, [] => some []
  | 0, _ :: _ => none
  | fuel + 1, line :: rest =>
    if bareBody line && !alreadyOpened line then
      (fixLinesFuel fuel (rest.dropWhile bareBody)).map (fun out =>
        opener :: (line :: rest.takeWhile bareBody) ++ closer :: out)
    else
      (fixLinesFuel fuel rest).map (fun out => line :: out)

/-- `fixLines` with the conjunct `not line.startswith('    /**')` removed
from the run-start test of line 25 — the variant whose equivalence with
`fixLines` is claimed. -/
def fixLinesNoCheck : List Line → List Line
  | [] => []
  | line :: rest =>
    if bareBody line then
      opener :: (line :: rest.takeWhile bareBody) ++ closer ::
        fixLinesNoCheck (rest.dropWhile bareBody)
    else
      line :: fixLinesNoCheck rest
termination_by l => l.length
decreasing_by
  · exact Nat.lt_succ_of_le (List.dropWhile_sublist bareBody).length_le
  · exact Nat.lt_succ_self _

/-- `fixCount` with the conjunct `not line.startswith('    /**')` removed
from the filter of line 50. -/
def fixCountNoCheck (lines : List Line) : Nat :=
  (lines.filter bareBody).length

/-- The `main` entry point (fix_kdoc.py, lines 53–75), modelled over an
abstract filesystem: `dirExists` is whether the hardcoded viewmodel
directory exists and `kotlinFiles` are the files matching the `*.kt` glob
(as abstract identifiers).  Result: the process exit status and the list of
files opened (read or written).  `sys.exit(1)` on a missing directory
happens before any file is opened; `sys.exit(1)` on an empty glob likewise;
otherwise every matching file is read and written back and the script ends
normally (status 0). -/
def mainRun (dirExists : Bool) (kotlinFiles : List Nat) : Nat × List Nat :=
  if !dirExists then (1, [])
  else if kotlinFiles.isEmpty then (1, [])
  else (0, kotlinFiles)

/-! ### Basic facts about the per-line predicates -/

/-- `startsWith p l` holds exactly when the first `p.length` characters of
`l` are `p`. -/
theorem startsWith_iff_take (p : List Char) :
    ∀ l : List Char, startsWith p l = true ↔ l.take p.length = p := by
  induction p with
  | nil => intro l; simp [startsWith]
  | cons a ps ih =>
    intro l
    cases l with
    | nil => simp [startsWith]
    | cons c cs =>
      simp only [startsWith, Bool.and_eq_true, beq_iff_eq, ih cs,
        List.length_cons, List.take_succ_cons, List.cons.injEq]
      constructor
      · rintro ⟨h1, h2⟩; exact ⟨h1.symm, h2⟩
      · rintro ⟨h1, h2⟩; exact ⟨h1.symm, h2⟩

/-- The two prefixes of line 25 are mutually exclusive: a line starting with
five spaces, an asterisk and a space cannot also start with four spaces and
`/**` (the characters at index 4 differ). -/
theorem bareBody_not_opened {l : Line} (h : bareBody l = true) :
    alreadyOpened l = false := by
  cases hop : alreadyOpened l with
  | false => rfl
  | true =>
    have h1 := (startsWith_iff_take "     * ".toList l).1 h
    have h2 := (startsWith_iff_take "    /**".toList l).1 hop
    have e : ("     * ".toList : List Char).length =
        ("    /**".toList : List Char).length := by decide
    rw [e, h2] at h1
    exact absurd h1 (by decide)

/-- The run-start test of line 25 collapses to the bare-body test alone. -/
theorem guard_eq_bare (l : Line) :
    (bareBody l && !alreadyOpened l) = bareBody l := by
  cases hb : bareBody l with
  | false => simp
  | true => simp [bareBody_not_opened hb]

theorem bareBody_opener : bareBody opener = false := by decide

theorem bareBody_closer : bareBody closer = false := by decide

/-! ### List helper lemmas -/

theorem dropWhile_eq_drop_len {α : Type} (p : α → Bool) :
    ∀ l : List α, l.dropWhile p = l.drop (l.takeWhile p).length := by
  intro l
  induction l with
  | nil => rfl
  | cons a t ih =>
    cases hp : p a with
    | true =>
      simp [List.dropWhile_cons, List.takeWhile_cons, hp, ih]
    | false =>
      simp [List.dropWhile_cons, List.takeWhile_cons, hp]

theorem dropWhile_append_all {α : Type} (p : α → Bool) :
    ∀ xs ys : List α, (∀ x ∈ xs, p x = true) →
      (xs ++ ys).dropWhile p = ys.dropWhile p := by
  intro xs
  induction xs with
  | nil => intro ys _; rfl
  | cons a t ih =>
    intro ys h
    have ha : p a = true := h a (List.mem_cons_self a t)
    rw [List.cons_append, List.dropWhile_cons, if_pos ha]
    exact ih ys (fun x hx => h x (List.mem_cons_of_mem a hx))

theorem getD_drop {α : Type} (d : α) :
    ∀ (n : Nat) (l : List α) (m : Nat),
      (l.drop n).getD m d = l.getD (n + m) d := by
  intro n
  induction n with
  | zero => intro l m; simp
  | succ k ih =>
    intro l m
    cases l with
    | nil => simp
    | cons a t =>
      rw [List.drop_succ_cons, ih t m,
        show k + 1 + m = (k + m) + 1 by omega, List.getD_cons_succ]

/-- Every position strictly before the end of the `takeWhile` block
satisfies the predicate. -/
theorem takeWhile_getD {α : Type} (p : α → Bool) (d : α) :
    ∀ (l : List α) (m : Nat), m < (l.takeWhile p).length →
      p (l.getD m d) = true := by
  intro l
  induction l with
  | nil => intro m h; simp at h
  | cons a t ih =>
    intro m h
    cases hp : p a with
    | false =>
      rw [List.takeWhile_cons_of_neg (by simp [hp])] at h
      simp at h
    | true =>
      rw [List.takeWhile_cons_of_pos hp] at h
      cases m with
      | zero => simpa using hp
      | succ k =>
        rw [List.getD_cons_succ]
        exact ih k (by simpa using h)

/-- The first position after the `takeWhile` block (when it exists) fails
the predicate. -/
theorem takeWhile_end_getD {α : Type} (p : α → Bool) (d : α) :
    ∀ l : List α, (l.takeWhile p).length < l.length →
      p (l.getD (l.takeWhile p).length d) = false := by
  intro l
  induction l with
  | nil => intro h; simp at h
  | cons a t ih =>
    intro h
    cases hp : p a with
    | false =>
      rw [List.takeWhile_cons_of_neg (by simp [hp]), List.length_nil,
        List.getD_cons_zero]
      exact hp
    | true =>
      rw [List.takeWhile_cons_of_pos hp] at h ⊢
      rw [List.length_cons, List.getD_cons_succ]
      exact ih (by simpa using h)

/-- The head of `dropWhile` (when it exists) fails the predicate. -/
theorem dropWhile_head_false {α : Type} (p : α → Bool) :
    ∀ (l : List α) (c : α) (cs : List α),
      l.dropWhile p = c :: cs → p c = false := by
  intro l
  induction l with
  | nil => intro c cs h; cases h
  | cons a t ih =>
    intro c cs h
    rw [List.dropWhile_cons] at h
    by_cases hp : p a = true
    · rw [if_pos hp] at h
      exact ih c cs h
    · rw [if_neg hp] at h
      cases h
      simpa using hp

/-! ### Structure of the repaired output -/

/-- Splitting a list at the `takeWhile` boundary preserves length. -/
theorem takeWhile_dropWhile_length {α : Type} (p : α → Bool) (l : List α) :
    (l.takeWhile p).length + (l.dropWhile p).length = l.length := by
  have h := congrArg List.length (List.takeWhile_append_dropWhile p l)
  rwa [List.length_append] at h

/-- Line-count accounting of the scan: each detected run contributes its own
lines plus the two inserted marker lines. -/
theorem fixLines_length (L : List Line) :
    (fixLines L).length = L.length + 2 * numRuns L := by
  induction L using fixLines.induct with
  | case1 => simp [fixLines, numRuns]
  | case2 line rest hg ih =>
    have hsplit := takeWhile_dropWhile_length bareBody rest
    simp only [fixLines, numRuns]
    rw [if_pos hg, if_pos hg]
    simp only [List.length_append, List.length_cons] at *
    omega
  | case3 line rest hg ih =>
    simp only [fixLines, numRuns]
    rw [if_neg hg, if_neg hg]
    simp only [List.length_cons]
    omega

/-- The count returned on line 50 equals the sum of the lengths of the
detected runs. -/
theorem fixCount_eq_runLineTotal (L : List Line) :
    fixCount L = runLineTotal L := by
  induction L using fixLines.induct with
  | case1 => simp [fixCount, runLineTotal]
  | case2 line rest hg ih =>
    show (List.filter _ (line :: rest)).length = runLineTotal (line :: rest)
    simp only [runLineTotal]
    rw [if_pos hg]
    simp only [List.filter_cons]
    rw [if_pos (by simpa using hg)]
    conv_lhs => rw [← List.takeWhile_append_dropWhile bareBody rest]
    rw [List.filter_append]
    have htw : (rest.takeWhile bareBody).filter
        (fun l => bareBody l && !alreadyOpened l) = rest.takeWhile bareBody :=
      List.filter_eq_self.2 (fun a ha => by
        rw [guard_eq_bare]; exact List.mem_takeWhile_imp ha)
    rw [htw]
    have hC : fixCount (rest.dropWhile bareBody) =
        runLineTotal (rest.dropWhile bareBody) := ih
    simp only [fixCount] at hC
    simp only [List.length_cons, List.length_append, hC]
    omega
  | case3 line rest hg ih =>
    show (List.filter _ (line :: rest)).length = runLineTotal (line :: rest)
    simp only [runLineTotal]
    rw [if_neg hg]
    simp only [List.filter_cons]
    rw [if_neg (by simpa using hg)]
    exact ih

/-- The lines that the scan passes through unchanged form a common
subsequence of the input and of the output. -/
theorem nonRunLines_sublist (L : List Line) :
    (nonRunLines L).Sublist L ∧ (nonRunLines L).Sublist (fixLines L) := by
  induction L using fixLines.induct with
  | case1 => simp [nonRunLines, fixLines]
  | case2 line rest hg ih =>
    obtain ⟨ih1, ih2⟩ := ih
    simp only [nonRunLines, fixLines]
    rw [if_pos hg, if_pos hg]
    constructor
    · exact ((ih1.trans (List.dropWhile_sublist bareBody)).cons line)
    · exact (ih2.cons closer).trans
        (List.sublist_append_right (opener :: line :: rest.takeWhile bareBody)
          (closer :: fixLines (rest.dropWhile bareBody)))
  | case3 line rest hg ih =>
    obtain ⟨ih1, ih2⟩ := ih
    simp only [nonRunLines, fixLines]
    rw [if_neg hg, if_neg hg]
    exact ⟨ih1.cons₂ line, ih2.cons₂ line⟩

/-- On an input with no bare-body line the scan is the identity and the
returned count is zero. -/
theorem fixLines_no_bare (L : List Line) (h : ∀ l ∈ L, bareBody l = false) :
    fixLines L = L ∧ fixCount L = 0 := by
  induction L with
  | nil => exact ⟨by simp [fixLines], rfl⟩
  | cons a t ih =>
    have ha : bareBody a = false := h a (List.mem_cons_self a t)
    have hg : ¬(bareBody a && !alreadyOpened a) = true := by simp [ha]
    obtain ⟨h1, h2⟩ := ih (fun l hl => h l (List.mem_cons_of_mem a hl))
    constructor
    · simp only [fixLines]
      rw [if_neg hg, h1]
    · show (List.filter _ (a :: t)).length = 0
      simp only [List.filter_cons]
      rw [if_neg (by simpa using hg)]
      exact h2

/-- The repaired output contains exactly the runs of the input: the inserted
marker lines are not bare-body lines, and the original run lines still are,
so a second scan detects the same runs again. -/
theorem numRuns_fixLines (L : List Line) :
    numRuns (fixLines L) = numRuns L := by
  induction L using fixLines.induct with
  | case1 => simp [fixLines]
  | case2 line rest hg ih =>
    have hb : bareBody line = true := ((Bool.and_eq_true _ _).mp hg).1
    simp only [fixLines]
    rw [if_pos hg]
    have hgop : ¬(bareBody opener && !alreadyOpened opener) = true := by
      simp [bareBody_opener]
    have hgcl : ¬(bareBody closer && !alreadyOpened closer) = true := by
      simp [bareBody_closer]
    rw [show (opener :: (line :: rest.takeWhile bareBody) ++ closer ::
        fixLines (rest.dropWhile bareBody)) = opener :: line ::
        (rest.takeWhile bareBody ++ closer ::
          fixLines (rest.dropWhile bareBody)) by simp]
    simp only [numRuns]
    rw [if_neg hgop, if_pos hg,
      dropWhile_append_all bareBody (rest.takeWhile bareBody) _
        (fun x hx => List.mem_takeWhile_imp hx),
      List.dropWhile_cons, if_neg (by simp [bareBody_closer])]
    simp only [numRuns]
    rw [if_neg hgcl, ih, if_pos hg]
  | case3 line rest hg ih =>
    simp only [fixLines]
    rw [if_neg hg]
    simp only [numRuns]
    rw [if_neg hg, if_neg hg, ih]

/-- Any bare-body line in the input forces at least one detected run. -/
theorem numRuns_pos_of_bare (l : Line) (hb : bareBody l = true) :
    ∀ L : List Line, l ∈ L → 0 < numRuns L := by
  intro L
  induction L with
  | nil => intro h; cases h
  | cons a t ih =>
    intro hl
    by_cases hg : (bareBody a && !alreadyOpened a) = true
    · simp only [numRuns]
      rw [if_pos hg]
      omega
    · have ha : bareBody a = false := by
        cases hab : bareBody a with
        | false => rfl
        | true => exact absurd (by rw [hab, bareBody_not_opened hab]; rfl) hg
      rcases List.mem_cons.1 hl with rfl | hm
      · rw [hb] at ha; cases ha
      · simp only [numRuns]
        rw [if_neg hg]
        exact ih hm

/-- Idempotence characterised: the rescan of a repaired output re-detects
every run, so the repair is idempotent exactly on inputs without bare-body
lines. -/
theorem fixLines_idem_iff (L : List Line) :
    fixLines (fixLines L) = fixLines L ↔ ∀ l ∈ L, bareBody l = false := by
  constructor
  · intro h
    by_contra hc
    push_neg at hc
    obtain ⟨l, hl, hb⟩ := hc
    have hb' : bareBody l = true := by
      cases hx : bareBody l with
      | false => exact absurd hx hb
      | true => rfl
    have h1 : 0 < numRuns L := numRuns_pos_of_bare l hb' L hl
    have h2 := fixLines_length (fixLines L)
    rw [h, numRuns_fixLines] at h2
    omega
  · intro h
    have h1 := (fixLines_no_bare L h).1
    rw [h1]
    exact h1

/-! ### Maximality of the detected runs -/

/-- Full invariant of the run detector: every detected span lies inside the
scanned suffix, consists of bare-body lines, starts at or after `idx`, is
preceded (when it starts after `idx`) and followed (when it ends before the
end) by a line that is not bare-body. -/
theorem runsFrom_spec (d : Line) :
    ∀ (idx : Nat) (L : List Line), ∀ p ∈ runsFrom idx L,
      idx ≤ p.1 ∧ p.1 < p.2 ∧ p.2 ≤ idx + L.length ∧
      (∀ k, p.1 ≤ k → k < p.2 → bareBody (L.getD (k - idx) d) = true) ∧
      (idx < p.1 → bareBody (L.getD (p.1 - 1 - idx) d) = false) ∧
      (p.2 < idx + L.length → bareBody (L.getD (p.2 - idx) d) = false) := by
  intro idx L
  induction idx, L using runsFrom.induct with
  | case1 idx =>
    intro p hp
    simp [runsFrom] at hp
  | case2 idx line rest hg ih =>
    intro p hp
    have hb : bareBody line = true := ((Bool.and_eq_true _ _).mp hg).1
    have htwlen : (rest.takeWhile bareBody).length ≤ rest.length :=
      (List.takeWhile_sublist bareBody).length_le
    have hsplit := takeWhile_dropWhile_length bareBody rest
    have hdrop : (line :: rest).drop ((rest.takeWhile bareBody).length + 1) =
        rest.dropWhile bareBody := by
      rw [List.drop_succ_cons]
      exact (dropWhile_eq_drop_len bareBody rest).symm
    have hkey : ∀ m, (rest.dropWhile bareBody).getD m d =
        (line :: rest).getD ((rest.takeWhile bareBody).length + 1 + m) d := by
      intro m
      rw [← hdrop, getD_drop]
    rw [runsFrom, if_pos hg] at hp
    rcases List.mem_cons.1 hp with rfl | hm
    · refine ⟨Nat.le_refl idx, ?_, ?_, ?_, ?_, ?_⟩
      · show idx < idx + (line :: rest.takeWhile bareBody).length
        simp only [List.length_cons]
        omega
      · show idx + (line :: rest.takeWhile bareBody).length ≤
          idx + (line :: rest).length
        simp only [List.length_cons]
        omega
      · intro k hk1 hk2
        show bareBody ((line :: rest).getD (k - idx) d) = true
        have hk1' : idx ≤ k := hk1
        have hk2' : k < idx + (line :: rest.takeWhile bareBody).length := hk2
        simp only [List.length_cons] at hk2'
        by_cases hk0 : k = idx
        · rw [hk0, Nat.sub_self, List.getD_cons_zero]
          exact hb
        · rw [(by omega : k - idx = (k - idx - 1) + 1), List.getD_cons_succ]
          exact takeWhile_getD bareBody d rest (k - idx - 1) (by omega)
      · intro h
        exact absurd (h : idx < idx) (Nat.lt_irrefl idx)
      · intro h
        have h' : idx + (line :: rest.takeWhile bareBody).length <
            idx + (line :: rest).length := h
        simp only [List.length_cons] at h'
        show bareBody ((line :: rest).getD
          (idx + (line :: rest.takeWhile bareBody).length - idx) d) = false
        rw [(by simp only [List.length_cons]; omega :
          idx + (line :: rest.takeWhile bareBody).length - idx =
            (rest.takeWhile bareBody).length + 1), List.getD_cons_succ]
        exact takeWhile_end_getD bareBody d rest (by omega)
    · obtain ⟨ih1, ih2, ih3, ih4, ih5, ih6⟩ := ih p hm
      simp only [List.length_cons] at ih1 ih3
      refine ⟨?_, ih2, ?_, ?_, ?_, ?_⟩
      · omega
      · simp only [List.length_cons]
        omega
      · intro k hk1 hk2
        have h4 := ih4 k hk1 hk2
        rw [hkey] at h4
        rw [(by simp only [List.length_cons]; omega :
          (rest.takeWhile bareBody).length + 1 +
            (k - (idx + (line :: rest.takeWhile bareBody).length)) =
              k - idx)] at h4
        exact h4
      · intro h
        rcases Nat.lt_or_ge (idx + (line :: rest.takeWhile bareBody).length)
            p.1 with hcase | hcase
        · have h5 := ih5 hcase
          rw [hkey] at h5
          simp only [List.length_cons] at hcase
          rw [(by simp only [List.length_cons]; omega :
            (rest.takeWhile bareBody).length + 1 +
              (p.1 - 1 - (idx + (line :: rest.takeWhile bareBody).length)) =
                p.1 - 1 - idx)] at h5
          exact h5
        · have heq : p.1 = idx + (line :: rest.takeWhile bareBody).length := by
            simp only [List.length_cons] at hcase ⊢
            omega
          exfalso
          cases hRc : rest.dropWhile bareBody with
          | nil =>
            rw [hRc] at hm
            simp [runsFrom] at hm
          | cons c cs =>
            have hc : bareBody c = false :=
              dropWhile_head_false bareBody rest c cs hRc
            have h4 := ih4 p.1 (Nat.le_refl p.1) ih2
            rw [heq, Nat.sub_self, hRc, List.getD_cons_zero] at h4
            rw [hc] at h4
            cases h4
      · intro h
        have h' : p.2 < idx + (line :: rest).length := h
        simp only [List.length_cons] at h'
        have h6 := ih6 (by simp only [List.length_cons]; omega)
        rw [hkey] at h6
        rw [(by simp only [List.length_cons]; omega :
          (rest.takeWhile bareBody).length + 1 +
            (p.2 - (idx + (line :: rest.takeWhile bareBody).length)) =
              p.2 - idx)] at h6
        exact h6
  | case3 idx line rest hg ih =>
    intro p hp
    have hbf : bareBody line = false := by
      cases hab : bareBody line with
      | false => rfl
      | true => exact absurd (by rw [hab, bareBody_not_opened hab]; rfl) hg
    rw [runsFrom, if_neg hg] at hp
    obtain ⟨ih1, ih2, ih3, ih4, ih5, ih6⟩ := ih p hp
    refine ⟨by omega, ih2, ?_, ?_, ?_, ?_⟩
    · simp only [List.length_cons]
      omega
    · intro k hk1 hk2
      have h4 := ih4 k hk1 hk2
      rw [(by omega : k - idx = (k - (idx + 1)) + 1), List.getD_cons_succ]
      exact h4
    · intro h
      rcases Nat.lt_or_ge (idx + 1) p.1 with hcase | hcase
      · have h5 := ih5 hcase
        rw [(by omega : p.1 - 1 - idx = (p.1 - 1 - (idx + 1)) + 1),
          List.getD_cons_succ]
        exact h5
      · have heq : p.1 = idx + 1 := by omega
        rw [(by omega : p.1 - 1 - idx = 0), List.getD_cons_zero]
        exact hbf
    · intro h
      have h' : p.2 < idx + (line :: rest).length := h
      simp only [List.length_cons] at h'
      have h6 := ih6 (by omega)
      rw [(by omega : p.2 - idx = (p.2 - (idx + 1)) + 1), List.getD_cons_succ]
      exact h6

/-- When the scan resumes after a consumed run, every further detected run
starts strictly later than the resume point, because the first remaining
line (if any) fails the bare-body test. -/
theorem runsFrom_start_gt (idx : Nat) (rest : List Line) :
    ∀ q ∈ runsFrom idx (rest.dropWhile bareBody), idx < q.1 := by
  intro q hq
  cases hRc : rest.dropWhile bareBody with
  | nil =>
    rw [hRc] at hq
    simp [runsFrom] at hq
  | cons c cs =>
    have hc : bareBody c = false := dropWhile_head_false bareBody rest c cs hRc
    rw [hRc] at hq
    rw [runsFrom, if_neg (by simp [hc])] at hq
    have h1 := (runsFrom_spec [] (idx + 1) cs q hq).1
    omega

/-- Detected runs are strictly separated: each ends before the next starts. -/
theorem runsFrom_pairwise :
    ∀ (idx : Nat) (L : List Line),
      (runsFrom idx L).Pairwise (fun a b => a.2 < b.1) := by
  intro idx L
  induction idx, L using runsFrom.induct with
  | case1 idx => simp [runsFrom]
  | case2 idx line rest hg ih =>
    rw [runsFrom, if_pos hg]
    exact List.pairwise_cons.2
      ⟨fun q hq => runsFrom_start_gt _ rest q hq, ih⟩
  | case3 idx line rest hg ih =>
    rw [runsFrom, if_neg hg]
    exact ih

/-! ### Termination of the scanning loop -/

/-- The scan needs at most one iteration per input line: with any budget of
at least `L.length` iterations it completes and agrees with `fixLines`. -/
theorem fixLinesFuel_eq :
    ∀ (fuel : Nat) (L : List Line), L.length ≤ fuel →
      fixLinesFuel fuel L = some (fixLines L) := by
  intro fuel
  induction fuel with
  | zero =>
    intro L h
    have hL : L = [] := List.length_eq_zero.1 (Nat.le_zero.1 h)
    subst hL
    simp [fixLinesFuel, fixLines]
  | succ n ih =>
    intro L h
    cases L with
    | nil => simp [fixLinesFuel, fixLines]
    | cons line rest =>
      simp only [List.length_cons] at h
      by_cases hg : (bareBody line && !alreadyOpened line) = true
      · have hd : (rest.dropWhile bareBody).length ≤ rest.length :=
          (List.dropWhile_sublist bareBody).length_le
        simp only [fixLinesFuel, fixLines]
        rw [if_pos hg, if_pos hg, ih _ (by omega)]
        rfl
      · simp only [fixLinesFuel, fixLines]
        rw [if_neg hg, if_neg hg, ih _ (by omega)]
        rfl

/-! ### Redundancy of the already-opened conjunct -/

/-- A line for which the run-start test fails is not a bare-body line. -/
theorem bare_false_of_guard_false {l : Line}
    (hg : ¬(bareBody l && !alreadyOpened l) = true) : bareBody l = false := by
  cases hab : bareBody l with
  | false => rfl
  | true => exact absurd (by rw [hab, bareBody_not_opened hab]; rfl) hg

theorem fixLinesNoCheck_eq (L : List Line) :
    fixLinesNoCheck L = fixLines L := by
  induction L using fixLines.induct with
  | case1 => simp [fixLines, fixLinesNoCheck]
  | case2 line rest hg ih =>
    have hb : bareBody line = true := ((Bool.and_eq_true _ _).mp hg).1
    simp only [fixLinesNoCheck, fixLines]
    rw [if_pos hb, if_pos hg, ih]
  | case3 line rest hg ih =>
    have hbf : bareBody line = false := bare_false_of_guard_false hg
    simp only [fixLinesNoCheck, fixLines]
    rw [if_neg (by simp [hbf]), if_neg hg, ih]

theorem fixCountNoCheck_eq (L : List Line) :
    fixCountNoCheck L = fixCount L := by
  unfold fixCountNoCheck fixCount
  rw [List.filter_congr (fun x _ => (guard_eq_bare x).symm)]


/-! ### Claims -/

/-- C1 (counterexample): the repair transformation is not idempotent.  On the
single bare-body line `"     * x\n"` the first run wraps the line, but the
wrapped line still satisfies the bare-body predicate, so a second run wraps
it again. -/
theorem fix_kdoc_not_idempotent :
    fixLines (fixLines ["     * x\n".toList]) ≠
      fixLines ["     * x\n".toList] := by
  have h1 : fixLines ["     * x\n".toList] =
      [opener, "     * x\n".toList, closer] := by
    simp +decide [fixLines, List.takeWhile, List.dropWhile, bareBody,
      alreadyOpened, startsWith]
  have h2 : fixLines [opener, "     * x\n".toList, closer] =
      [opener, opener, "     * x\n".toList, closer, closer] := by
    simp +decide [fixLines, List.takeWhile, List.dropWhile, bareBody,
      alreadyOpened, startsWith, opener, closer]
  rw [h1, h2]
  decide

/-- C1 (amended): running the repair twice yields the same output as running
it once exactly when the input contains no bare-body line (in which case the
repair is the identity); whenever some line satisfies the bare-body
predicate, the repaired output still contains that line unchanged, the line
still satisfies the predicate, and a second run inserts markers again. -/
theorem fix_kdoc_idempotent_iff (L : List Line) :
    fixLines (fixLines L) = fixLines L ↔ ∀ l ∈ L, bareBody l = false :=
  fixLines_idem_iff L

/-- Witness for C1 (amended) at a concrete bare-body-free input. -/
theorem fix_kdoc_idempotent_iff_w :
    fixLines (fixLines ["x\n".toList]) = fixLines ["x\n".toList] :=
  (fix_kdoc_idempotent_iff ["x\n".toList]).2 (by decide)

/-- C2: the output line count is the input line count plus two for every
detected run (one opening and one closing marker line per run). -/
theorem fix_kdoc_line_count (L : List Line) :
    (fixLines L).length = L.length + 2 * numRuns L :=
  fixLines_length L

/-- C3: the value returned by `fix_kdoc_in_file` is the total number of
input lines belonging to some detected run — the sum of the run lengths,
not the number of runs. -/
theorem fix_kdoc_count_is_run_lines (L : List Line) :
    fixCount L = runLineTotal L :=
  fixCount_eq_runLineTotal L

/-- C4: the input lines that are not part of any detected run appear
unchanged, in the same relative order, both in the input (of which they
form a subsequence) and in the repaired output. -/
theorem fix_kdoc_order_preservation (L : List Line) :
    (nonRunLines L).Sublist L ∧ (nonRunLines L).Sublist (fixLines L) :=
  nonRunLines_sublist L

/-- C5: detected runs are maximal and separated: each run consists of
bare-body lines, the line before its start (when the run does not start the
file) and the line at its exclusive end (when the run does not end the
file) are not bare-body lines, and distinct runs neither overlap nor touch
(each ends strictly before the next starts). -/
theorem fix_kdoc_runs_maximal (L : List Line) :
    (∀ p ∈ runs L,
      p.1 < p.2 ∧ p.2 ≤ L.length ∧
      (∀ k, p.1 ≤ k → k < p.2 → bareBody (L.getD k []) = true) ∧
      (0 < p.1 → bareBody (L.getD (p.1 - 1) []) = false) ∧
      (p.2 < L.length → bareBody (L.getD p.2 []) = false)) ∧
    (runs L).Pairwise (fun a b => a.2 < b.1) := by
  constructor
  · intro p hp
    simp only [runs] at hp
    obtain ⟨h1, h2, h3, h4, h5, h6⟩ := runsFrom_spec [] 0 L p hp
    refine ⟨h2, by omega, ?_, ?_, ?_⟩
    · intro k hk1 hk2
      have h := h4 k hk1 hk2
      rwa [Nat.sub_zero] at h
    · intro h
      have h' := h5 h
      rwa [Nat.sub_zero] at h'
    · intro h
      have h' := h6 (by omega)
      rwa [Nat.sub_zero] at h'
  · exact runsFrom_pairwise 0 L

/-- Witness for C5 on `["x\n", "     * a\n", "     * b\n"]`, whose only
detected run is the span `(1, 3)`: the line before the run and the k-th run
lines are checked concretely. -/
theorem fix_kdoc_runs_maximal_w :
    bareBody (["x\n".toList, "     * a\n".toList,
      "     * b\n".toList].getD 0 []) = false ∧
    bareBody (["x\n".toList, "     * a\n".toList,
      "     * b\n".toList].getD 1 []) = true := by
  have hr : runs ["x\n".toList, "     * a\n".toList, "     * b\n".toList] =
      [(1, 3)] := by
    simp +decide [runs, runsFrom, List.takeWhile, List.dropWhile, bareBody,
      alreadyOpened, startsWith]
  have hmem : ((1, 3) : Nat × Nat) ∈
      runs ["x\n".toList, "     * a\n".toList, "     * b\n".toList] := by
    rw [hr]
    exact List.mem_cons_self _ _
  have h := (fix_kdoc_runs_maximal
    ["x\n".toList, "     * a\n".toList, "     * b\n".toList]).1 (1, 3) hmem
  exact ⟨h.2.2.2.1 (by decide), h.2.2.1 1 (by decide) (by decide)⟩

/-- C6: on the input of three consecutive bare-body lines a, b, c with no
preceding opener, the output is the opening marker, the three lines
unchanged, then the closing marker, and the returned count is 3. -/
theorem fix_kdoc_scenario_one :
    fixLines ["     * a\n".toList, "     * b\n".toList,
        "     * c\n".toList] =
      ["    /**\n".toList, "     * a\n".toList, "     * b\n".toList,
        "     * c\n".toList, "     */\n".toList] ∧
    fixCount ["     * a\n".toList, "     * b\n".toList,
        "     * c\n".toList] = 3 := by
  constructor
  · simp +decide [fixLines, List.takeWhile, List.dropWhile, bareBody,
      alreadyOpened, startsWith, opener, closer]
  · decide

/-- C7: an input with no bare-body line is returned unchanged and the
repaired count is 0. -/
theorem fix_kdoc_no_bare_id (L : List Line)
    (h : ∀ l ∈ L, bareBody l = false) :
    fixLines L = L ∧ fixCount L = 0 :=
  fixLines_no_bare L h

/-- Witness for C7 at a concrete two-line input. -/
theorem fix_kdoc_no_bare_id_w :
    (∀ l ∈ ["val x = 1\n".toList, "// note\n".toList], bareBody l = false) ∧
    (fixLines ["val x = 1\n".toList, "// note\n".toList] =
        ["val x = 1\n".toList, "// note\n".toList] ∧
      fixCount ["val x = 1\n".toList, "// note\n".toList] = 0) :=
  ⟨by decide, fix_kdoc_no_bare_id _ (by decide)⟩

/-- C8: when the target directory is missing, or when it contains no
matching file, the process exits with a non-zero status; in the
missing-directory case no file is read or written. -/
theorem fix_kdoc_main_failure (dirExists : Bool) (files : List Nat)
    (h : dirExists = false ∨ files = []) :
    (mainRun dirExists files).1 ≠ 0 ∧
      (dirExists = false → (mainRun dirExists files).2 = []) := by
  rcases h with h | h
  · subst h
    exact ⟨by simp [mainRun], fun _ => by simp [mainRun]⟩
  · subst h
    cases dirExists <;> simp [mainRun]

/-- Witness for C8: missing directory with one matching file present. -/
theorem fix_kdoc_main_failure_w :
    (false = false ∨ ([3] : List Nat) = []) ∧
    ((mainRun false [3]).1 ≠ 0 ∧
      (false = false → (mainRun false [3]).2 = [])) :=
  ⟨Or.inl rfl, fix_kdoc_main_failure false [3] (Or.inl rfl)⟩

/-- C9: the scanning loop terminates: the index strictly increases on every
iteration, so a budget of `len(lines)` iterations always suffices, and the
bounded loop computes exactly the total function `fixLines` with no failure
mode. -/
theorem fix_kdoc_loop_terminates (fuel : Nat) (L : List Line)
    (h : L.length ≤ fuel) : fixLinesFuel fuel L = some (fixLines L) :=
  fixLinesFuel_eq fuel L h

/-- Witness for C9 at a concrete two-line input with budget 2. -/
theorem fix_kdoc_loop_terminates_w :
    (["     * a\n".toList, "y\n".toList] : List Line).length ≤ 2 ∧
    fixLinesFuel 2 ["     * a\n".toList, "y\n".toList] =
      some (fixLines ["     * a\n".toList, "y\n".toList]) :=
  ⟨by decide, fix_kdoc_loop_terminates 2 _ (by decide)⟩

/-- C10: the bare-body and already-opened prefixes are mutually exclusive
(they differ at character index 4), so dropping the conjunct
`not line.startswith('    /**')` from the run-start test and from the
returned count changes neither the transformation nor the count on any
input. -/
theorem fix_kdoc_opened_check_redundant (l : Line) (L : List Line) :
    (bareBody l = true → alreadyOpened l = false) ∧
    fixLinesNoCheck L = fixLines L ∧ fixCountNoCheck L = fixCount L :=
  ⟨fun h => bareBody_not_opened h, fixLinesNoCheck_eq L, fixCountNoCheck_eq L⟩

/-- Witness for C10 at a concrete bare-body line. -/
theorem fix_kdoc_opened_check_redundant_w :
    bareBody "     * y\n".toList = true ∧
    alreadyOpened "     * y\n".toList = false ∧
    fixCountNoCheck ["     * y\n".toList] = fixCount ["     * y\n".toList] :=
  ⟨by decide,
   (fix_kdoc_opened_check_redundant "     * y\n".toList
     ["     * y\n".toList]).1 (by decide),
   (fix_kdoc_opened_check_redundant "     * y\n".toList
     ["     * y\n".toList]).2.2⟩
